import Mathlib

/-!
Verification of the `nest` shape-composition core (`src/src/shape/mod.rs`).

Shallow embedding conventions:
* Rust `f32` coordinates are idealized as real numbers `ℝ` (the spec's
  "up to floating-point tolerance" laws become exact equalities).
* `cgm::Point2<f32>` / `cgm::Vector2<f32>` are both embedded as `Point`.
* The opaque `Rc<Texture2d>` handle is embedded as an abstract identifier
  `Texture := ℕ`; the core never inspects it, only copies and compares it.
* Rust iterators are embedded by an explicit iterator state machine `Iter`
  mirroring the `std::iter` combinators the code uses (`Once`, `Chain`,
  and a per-element `Map`), with `Iter.next` as the `Iterator::next`
  protocol.  A shape's emitted sequence is obtained by draining this
  machine (`ShapeExpr.triangles`).

The submodules `shape/translate.rs`, `shape/rotate.rs`, `shape/combine.rs`
and the `color` module are declared in `mod.rs` but their files are not
present in the repository snapshot; the definitions embedding them are
modelled from the spec and say so in their doc comments.
-/

noncomputable section

namespace Nest

/-- Embedding of `cgm::Point2<f32>` / `cgm::Vector2<f32>`: a 2D coordinate
pair, with `f32` idealized as `ℝ`. -/
structure Point where
  x : ℝ
  y : ℝ

/-- Componentwise addition, as `cgmath`'s `Point2 + Vector2`. -/
instance : Add Point where
  add p q := ⟨p.x + q.x, p.y + q.y⟩

theorem Point.add_def (p q : Point) : p + q = ⟨p.x + q.x, p.y + q.y⟩ := rfl

/-- Embedding of `Positions` (`mod.rs` line 95): exactly three 2D points,
`pub struct Positions(pub [[f32; 2]; 3])`, as an ordered triple. -/
structure Positions where
  a : Point
  b : Point
  c : Point

/-- Embedding of `Positions::map` (`mod.rs` lines 98-100): apply `f` to
each of the three points in order. -/
def Positions.map (f : Point → Point) (ps : Positions) : Positions :=
  ⟨f ps.a, f ps.b, f ps.c⟩

/-- Embedding of a 4-component RGBA color value `[f32; 4]`. -/
abbrev RGBA : Type := ℝ × ℝ × ℝ × ℝ

/-- Embedding of the `Color` newtype from the `color` module: a wrapper
around an RGBA quadruple, matching the field access `color.into().0` in
`Tri::new`. -/
structure Color where
  rgba : RGBA

/-- Modelled from the spec: the `color` module's source file is not in the
repository snapshot, so the value of `Color::WHITE` used by `Tri::new_pos`
is taken from spec §3's color convention (RGBA with each channel in
`[0,1]`), under which white is the all-ones quadruple. -/
def Color.WHITE : Color := ⟨(1, 1, 1, 1)⟩

/-- Embedding of `Tri` (`mod.rs` lines 105-112): three space vertices,
three texture coordinates, and a color. -/
structure Tri where
  positions : Positions
  texcoords : Positions
  color : RGBA

/-- Embedding of `Tri::new` (`mod.rs` lines 117-139): build a triangle
from positions, texture coordinates and a color (storing the color's raw
quadruple, as `color.into().0` does). -/
def Tri.new (positions : Positions) (texcoords : Positions) (color : Color) : Tri :=
  ⟨positions, texcoords, color.rgba⟩

/-- The texture-coordinate triple `[cgm::Point2::new(0.0, 0.0); 3]` used
by `Tri::new_pos`. -/
def zeroTexcoords : Positions := ⟨⟨0, 0⟩, ⟨0, 0⟩, ⟨0, 0⟩⟩

/-- Embedding of `Tri::new_pos` (`mod.rs` lines 143-153): a single-color
triangle with all texture coordinates `(0,0)` and color `Color::WHITE`. -/
def Tri.new_pos (positions : Positions) : Tri :=
  Tri.new positions zeroTexcoords Color.WHITE

/-- Opaque embedding of the shared texture handle `Rc<Texture2d>`: the
core never inspects it, so an abstract identifier suffices. -/
abbrev Texture : Type := ℕ

/-- Embedding of `RendTri` (`mod.rs` lines 53-56): a triangle plus an
optional shared texture reference. -/
structure RendTri where
  tri : Tri
  texture : Option Texture

/-- Embedding of `RendTri::map_pos` (`mod.rs` lines 60-63): apply `f` to
the three position points, leaving texture coordinates, color and the
texture reference untouched. -/
def RendTri.map_pos (f : Point → Point) (t : RendTri) : RendTri :=
  { t with tri := { t.tri with positions := t.tri.positions.map f } }

/-- Embedding of `impl From<Tri> for RendTri` (`mod.rs` lines 84-91):
wrap a triangle with `texture = None`. -/
def RendTri.ofTri (tri : Tri) : RendTri :=
  ⟨tri, none⟩

/-- Embedding of `Rect` (`mod.rs` line 166): two corner points, each a
`[f32; 2]` pair. -/
structure Rect where
  p0 : ℝ × ℝ
  p1 : ℝ × ℝ

/-!
## The iterator state machine

`mod.rs` implements `IntoIterator for Rect` with iterator type
`Chain<Once<RendTri>, Once<RendTri>>`.  `Iter` embeds exactly the
`std::iter` shapes the crate's shape types build: `once` / an exhausted
iterator, a list-backed source iterator (for arbitrary `Shape` sources
such as `Vec<RendTri>`), `chain`, and a per-element `map` (the shape of
the `Translate`/`Rotate` wrappers per spec §4.2-§4.3).
-/

/-- Iterator states over renderable triangles. -/
inductive Iter where
  /-- An exhausted iterator (`Once` after yielding, or an empty source). -/
  | done
  /-- `std::iter::Once` before yielding its element. -/
  | once (t : RendTri)
  /-- A list-backed source iterator (an arbitrary `Shape`'s sequence). -/
  | ofList (l : List RendTri)
  /-- `std::iter::Chain`: drain the first iterator, then the second. -/
  | chain (i1 i2 : Iter)
  /-- A per-element map over an inner iterator. -/
  | map (f : RendTri → RendTri) (i : Iter)

/-- The `Iterator::next` protocol on iterator states: yield the next
triangle and the successor state, or `none` when exhausted. -/
def Iter.next : Iter → Option (RendTri × Iter)
  | .done => none
  | .once t => some (t, .done)
  | .ofList [] => none
  | .ofList (t :: ts) => some (t, .ofList ts)
  | .chain i1 i2 =>
    match i1.next with
    | some (t, i1') => some (t, .chain i1' i2)
    | none => i2.next
  | .map f i =>
    match i.next with
    | some (t, i') => some (f t, .map f i')
    | none => none

/-- The sequence an iterator state denotes, computed structurally; used as
the termination measure and specification for draining. -/
def Iter.toList : Iter → List RendTri
  | .done => []
  | .once t => [t]
  | .ofList l => l
  | .chain i1 i2 => i1.toList ++ i2.toList
  | .map f i => i.toList.map f

/-- Drain an iterator by repeatedly calling `next`, with explicit fuel. -/
def Iter.drainFuel : ℕ → Iter → List RendTri
  | 0, _ => []
  | n + 1, i =>
    match i.next with
    | some (t, i') => t :: Iter.drainFuel n i'
    | none => []

/-- Drain an iterator by repeatedly calling `next` until exhaustion (the
remaining-element count bounds the number of calls needed). -/
def Iter.drain (i : Iter) : List RendTri :=
  Iter.drainFuel i.toList.length i

/-- Embedding of `impl IntoIterator for Rect` (`mod.rs` lines 168-186):
chain two `once` iterators holding the two triangles of the fixed
diagonal split, each built by `Tri::new_pos` and wrapped by
`From<Tri>`. -/
def Rect.intoIter (r : Rect) : Iter :=
  .chain
    (.once (RendTri.ofTri (Tri.new_pos
      ⟨⟨r.p0.1, r.p0.2⟩, ⟨r.p1.1, r.p0.2⟩, ⟨r.p0.1, r.p1.2⟩⟩)))
    (.once (RendTri.ofTri (Tri.new_pos
      ⟨⟨r.p1.1, r.p1.2⟩, ⟨r.p0.1, r.p1.2⟩, ⟨r.p1.1, r.p0.2⟩⟩)))

/-- Modelled from the spec: `shape/translate.rs` is not in the repository
snapshot.  Spec §4.2: the per-triangle transform of `Translate` shifts
each position point by the offset vector `v` and copies `texcoords`,
`color` and `texture` unchanged — i.e. `RendTri::map_pos` with `(· + v)`. -/
def translateRend (v : Point) : RendTri → RendTri :=
  RendTri.map_pos (fun p => p + v)

/-- The 2D rotation of a point about the origin by angle `θ`
(spec §4.1): `(x·cosθ − y·sinθ, x·sinθ + y·cosθ)`. -/
def rotP (θ : ℝ) (p : Point) : Point :=
  ⟨p.x * Real.cos θ - p.y * Real.sin θ, p.x * Real.sin θ + p.y * Real.cos θ⟩

/-- Modelled from the spec: `shape/rotate.rs` is not in the repository
snapshot.  Spec §4.3: the per-triangle transform of `Rotate` applies the
standard rotation matrix about the origin to each position point, leaving
texture coordinates, color and texture unchanged. -/
def rotateRend (θ : ℝ) : RendTri → RendTri :=
  RendTri.map_pos (rotP θ)

/-- A shape expression: a primitive or arbitrary triangle source decorated
by the three structural combinators of the `Shape` trait (`mod.rs` lines
18-48).  `source` stands for an arbitrary further `Shape` implementor
(any `IntoIterator<Item = RendTri>`, e.g. a `Vec<RendTri>`), so the
combinator laws below are quantified over all shapes. -/
inductive ShapeExpr where
  /-- The `Rect` primitive. -/
  | rect (r : Rect)
  /-- An arbitrary shape, given by the sequence it produces. -/
  | source (l : List RendTri)
  /-- `Shape::translate` (`mod.rs` lines 32-34) wrapping a shape. -/
  | translate (s : ShapeExpr) (v : Point)
  /-- `Shape::rotate` (`mod.rs` lines 45-47) wrapping a shape. -/
  | rotate (s : ShapeExpr) (θ : ℝ)
  /-- `Shape::combine` (`mod.rs` lines 20-22) joining two shapes. -/
  | combine (s1 s2 : ShapeExpr)

/-- The iterator a shape expression converts into.  `rect` is from the
source (`mod.rs` lines 168-186).  Modelled from the spec for the three
combinators, whose module files are not in the snapshot: `Combine` chains
its two inner iterators (§4.4), `Translate` and `Rotate` map their
per-triangle transforms over the inner iterator (§4.2, §4.3). -/
def ShapeExpr.intoIter : ShapeExpr → Iter
  | .rect r => r.intoIter
  | .source l => .ofList l
  | .translate s v => .map (translateRend v) s.intoIter
  | .rotate s θ => .map (rotateRend θ) s.intoIter
  | .combine s1 s2 => .chain s1.intoIter s2.intoIter

/-- The triangle sequence a shape emits: convert it into an iterator and
drain that iterator via the `next` protocol. -/
def ShapeExpr.triangles (s : ShapeExpr) : List RendTri :=
  s.intoIter.drain

/-- One fresh iteration of the same shape value per frame, `n` frames:
each run converts the (unconsumed, by-value-copied) shape into a fresh
iterator and drains it. -/
def ShapeExpr.iterateN (s : ShapeExpr) : ℕ → List (List RendTri)
  | 0 => []
  | n + 1 => s.triangles :: s.iterateN n

/-- The flat list of position points emitted by a triangle sequence, three
per triangle in vertex order. -/
def posPoints : List RendTri → List Point
  | [] => []
  | t :: ts => t.tri.positions.a :: t.tri.positions.b :: t.tri.positions.c :: posPoints ts

/-!
## Adequacy of draining

Draining an iterator state through the `next` protocol produces exactly
the sequence the state denotes; hence `ShapeExpr.triangles` computes the
structural per-constructor semantics.
-/

theorem Iter.toList_eq_nil_of_next_none : ∀ {i : Iter}, i.next = none → i.toList = [] := by
  intro i
  induction i with
  | done => intro; rfl
  | once t => intro h; simp [Iter.next] at h
  | ofList l =>
    cases l with
    | nil => intro; rfl
    | cons t ts => intro h; simp [Iter.next] at h
  | chain i1 i2 ih1 ih2 =>
    intro h
    simp only [Iter.next] at h
    cases h1 : i1.next with
    | some p => rw [h1] at h; simp at h
    | none =>
      rw [h1] at h
      simp only [Iter.toList, ih1 h1, ih2 h, List.nil_append]
  | map f i ih =>
    intro h
    simp only [Iter.next] at h
    cases h1 : i.next with
    | some p => rw [h1] at h; simp at h
    | none => simp only [Iter.toList, ih h1, List.map_nil]

theorem Iter.toList_eq_cons_of_next_some :
    ∀ {i : Iter} {t : RendTri} {i' : Iter}, i.next = some (t, i') → i.toList = t :: i'.toList := by
  intro i
  induction i with
  | done => intro t i' h; simp [Iter.next] at h
  | once u =>
    intro t i' h
    simp only [Iter.next, Option.some.injEq, Prod.mk.injEq] at h
    obtain ⟨rfl, rfl⟩ := h
    rfl
  | ofList l =>
    intro t i' h
    cases l with
    | nil => simp [Iter.next] at h
    | cons u us =>
      simp only [Iter.next, Option.some.injEq, Prod.mk.injEq] at h
      obtain ⟨rfl, rfl⟩ := h
      rfl
  | chain i1 i2 ih1 ih2 =>
    intro t i' h
    simp only [Iter.next] at h
    cases h1 : i1.next with
    | some p =>
      obtain ⟨u, i1'⟩ := p
      rw [h1] at h
      simp only [Option.some.injEq, Prod.mk.injEq] at h
      obtain ⟨rfl, rfl⟩ := h
      simp only [Iter.toList, ih1 h1, List.cons_append]
    | none =>
      rw [h1] at h
      simp only [Iter.toList, Iter.toList_eq_nil_of_next_none h1, ih2 h, List.nil_append]
  | map f i ih =>
    intro t i' h
    simp only [Iter.next] at h
    cases h1 : i.next with
    | some p =>
      obtain ⟨u, i0⟩ := p
      rw [h1] at h
      simp only [Option.some.injEq, Prod.mk.injEq] at h
      obtain ⟨rfl, rfl⟩ := h
      simp only [Iter.toList, ih h1, List.map_cons]
    | none => rw [h1] at h; simp at h

theorem Iter.drainFuel_eq_toList :
    ∀ (n : ℕ) (i : Iter), i.toList.length ≤ n → Iter.drainFuel n i = i.toList := by
  intro n
  induction n with
  | zero =>
    intro i h
    rw [Nat.le_zero, List.length_eq_zero] at h
    simp [Iter.drainFuel, h]
  | succ n ih =>
    intro i h
    cases h1 : i.next with
    | none => simp [Iter.drainFuel, h1, Iter.toList_eq_nil_of_next_none h1]
    | some p =>
      obtain ⟨t, i'⟩ := p
      have ht := Iter.toList_eq_cons_of_next_some h1
      rw [ht, List.length_cons, Nat.succ_le_succ_iff] at h
      simp [Iter.drainFuel, h1, ht, ih i' h]

theorem Iter.drain_eq_toList (i : Iter) : i.drain = i.toList :=
  Iter.drainFuel_eq_toList _ i le_rfl

theorem ShapeExpr.triangles_eq_toList (s : ShapeExpr) : s.triangles = s.intoIter.toList :=
  Iter.drain_eq_toList _

theorem ShapeExpr.triangles_source (l : List RendTri) : (ShapeExpr.source l).triangles = l := by
  rw [ShapeExpr.triangles_eq_toList]; rfl

theorem ShapeExpr.triangles_rect (r : Rect) :
    (ShapeExpr.rect r).triangles =
      [RendTri.ofTri (Tri.new_pos ⟨⟨r.p0.1, r.p0.2⟩, ⟨r.p1.1, r.p0.2⟩, ⟨r.p0.1, r.p1.2⟩⟩),
       RendTri.ofTri (Tri.new_pos ⟨⟨r.p1.1, r.p1.2⟩, ⟨r.p0.1, r.p1.2⟩, ⟨r.p1.1, r.p0.2⟩⟩)] := by
  rw [ShapeExpr.triangles_eq_toList]; rfl

theorem ShapeExpr.triangles_translate (s : ShapeExpr) (v : Point) :
    (ShapeExpr.translate s v).triangles = s.triangles.map (translateRend v) := by
  rw [ShapeExpr.triangles_eq_toList, ShapeExpr.triangles_eq_toList]; rfl

theorem ShapeExpr.triangles_rotate (s : ShapeExpr) (θ : ℝ) :
    (ShapeExpr.rotate s θ).triangles = s.triangles.map (rotateRend θ) := by
  rw [ShapeExpr.triangles_eq_toList, ShapeExpr.triangles_eq_toList]; rfl

theorem ShapeExpr.triangles_combine (s1 s2 : ShapeExpr) :
    (ShapeExpr.combine s1 s2).triangles = s1.triangles ++ s2.triangles := by
  rw [ShapeExpr.triangles_eq_toList, ShapeExpr.triangles_eq_toList,
    ShapeExpr.triangles_eq_toList]; rfl

theorem rotP_rotP (a b : ℝ) (p : Point) : rotP b (rotP a p) = rotP (a + b) p := by
  simp only [rotP, Real.cos_add, Real.sin_add, Point.mk.injEq]
  constructor <;> ring

theorem rotateRend_rotateRend (a b : ℝ) (t : RendTri) :
    rotateRend b (rotateRend a t) = rotateRend (a + b) t := by
  obtain ⟨⟨⟨pa, pb, pc⟩, tc, col⟩, tex⟩ := t
  simp [rotateRend, RendTri.map_pos, Positions.map, rotP_rotP]

theorem translateRend_translateRend (v1 v2 : Point) (t : RendTri) :
    translateRend v2 (translateRend v1 t) = translateRend (v1 + v2) t := by
  obtain ⟨⟨⟨pa, pb, pc⟩, tc, col⟩, tex⟩ := t
  simp only [translateRend, RendTri.map_pos, Positions.map, Point.add_def, Point.mk.injEq,
    RendTri.mk.injEq, Tri.mk.injEq, Positions.mk.injEq, and_true, true_and]
  refine ⟨⟨?_, ?_⟩, ⟨?_, ?_⟩, ⟨?_, ?_⟩⟩ <;> ring

theorem posPoints_rect (p0 p1 : ℝ × ℝ) :
    posPoints ((ShapeExpr.rect ⟨p0, p1⟩).triangles) =
      [⟨p0.1, p0.2⟩, ⟨p1.1, p0.2⟩, ⟨p0.1, p1.2⟩, ⟨p1.1, p1.2⟩, ⟨p0.1, p1.2⟩, ⟨p1.1, p0.2⟩] := by
  rw [ShapeExpr.triangles_eq_toList]; rfl

/-!
## The claims
-/

/-- Claim C1: for every pair of corner points `p0, p1`, iterating
`Rect(p0, p1)` yields exactly two renderable triangles in the fixed
order — the first with position vertices `(p0.x,p0.y), (p1.x,p0.y),
(p0.x,p1.y)`, the second with `(p1.x,p1.y), (p0.x,p1.y), (p1.x,p0.y)` —
every vertex with texture coordinates `(0,0)` and both triangles with
`texture = none`. -/
theorem rect_iter_fixed_split (p0 p1 : ℝ × ℝ) :
    ((ShapeExpr.rect ⟨p0, p1⟩).triangles).map
        (fun t => (t.tri.positions, t.tri.texcoords, t.texture)) =
      [(⟨⟨p0.1, p0.2⟩, ⟨p1.1, p0.2⟩, ⟨p0.1, p1.2⟩⟩,
          ⟨⟨0, 0⟩, ⟨0, 0⟩, ⟨0, 0⟩⟩, (none : Option Texture)),
       (⟨⟨p1.1, p1.2⟩, ⟨p0.1, p1.2⟩, ⟨p1.1, p0.2⟩⟩,
          ⟨⟨0, 0⟩, ⟨0, 0⟩, ⟨0, 0⟩⟩, (none : Option Texture))] := by
  rw [ShapeExpr.triangles_rect]; rfl

/-- Claim C2: for every shape `S1` and every shape `S2`, iterating
`S1.combine(S2)` yields exactly `S1`'s sequence followed by `S2`'s
sequence, with no element removed, duplicated, or reordered. -/
theorem combine_iter_concat (s1 s2 : ShapeExpr) :
    (ShapeExpr.combine s1 s2).triangles = s1.triangles ++ s2.triangles :=
  ShapeExpr.triangles_combine s1 s2

/-- Claim C3: for every shape `S` and vector `v`, iterating
`S.translate(v)` yields, triangle for triangle, `S`'s sequence with each
of the three position points shifted by exactly `v`, while texture
coordinates, color and the optional texture reference are unchanged. -/
theorem translate_iter_shifts_positions (s : ShapeExpr) (v : Point) :
    (ShapeExpr.translate s v).triangles = s.triangles.map (translateRend v) ∧
      ∀ t : RendTri,
        (translateRend v t).tri.positions = t.tri.positions.map (fun p => p + v) ∧
        (translateRend v t).tri.texcoords = t.tri.texcoords ∧
        (translateRend v t).tri.color = t.tri.color ∧
        (translateRend v t).texture = t.texture :=
  ⟨ShapeExpr.triangles_translate s v, fun _ => ⟨rfl, rfl, rfl, rfl⟩⟩

/-- Claim C4: for every shape `S` and angle `θ`, iterating `S.rotate(θ)`
yields, triangle for triangle, `S`'s sequence with each position point
`(x,y)` replaced by `(x·cosθ − y·sinθ, x·sinθ + y·cosθ)` — the standard
2D rotation about the origin — while texture coordinates and color are
unchanged. -/
theorem rotate_iter_rotation_matrix (s : ShapeExpr) (θ : ℝ) :
    (ShapeExpr.rotate s θ).triangles = s.triangles.map (rotateRend θ) ∧
      ∀ t : RendTri,
        (rotateRend θ t).tri.positions = t.tri.positions.map
          (fun p => ⟨p.x * Real.cos θ - p.y * Real.sin θ,
                     p.x * Real.sin θ + p.y * Real.cos θ⟩) ∧
        (rotateRend θ t).tri.texcoords = t.tri.texcoords ∧
        (rotateRend θ t).tri.color = t.tri.color :=
  ⟨ShapeExpr.triangles_rotate s θ, fun _ => ⟨rfl, rfl, rfl⟩⟩

/-- Claim C5: for every shape `S` and all angles `a`, `b`, iterating
`S.rotate(a).rotate(b)` produces the same triangle sequence as iterating
`S.rotate(a+b)` (exact in the real-number idealization of `f32`). -/
theorem rotate_compose_angle_add (s : ShapeExpr) (a b : ℝ) :
    (ShapeExpr.rotate (ShapeExpr.rotate s a) b).triangles =
      (ShapeExpr.rotate s (a + b)).triangles := by
  simp only [ShapeExpr.triangles_rotate, List.map_map]
  congr 1
  funext t
  exact rotateRend_rotateRend a b t

/-- Claim C6: for every shape `S` and all vectors `v1`, `v2`, iterating
`S.translate(v1).translate(v2)` produces the same triangle sequence as
iterating `S.translate(v1+v2)`. -/
theorem translate_compose_vector_add (s : ShapeExpr) (v1 v2 : Point) :
    (ShapeExpr.translate (ShapeExpr.translate s v1) v2).triangles =
      (ShapeExpr.translate s (v1 + v2)).triangles := by
  simp only [ShapeExpr.triangles_translate, List.map_map]
  congr 1
  funext t
  exact translateRend_translateRend v1 v2 t

/-- Claim C7: for all shapes `A`, `B`, `C`, iterating
`(A.combine(B)).combine(C)` and iterating `A.combine(B.combine(C))`
produce identical triangle sequences (combine is associative on the
emitted sequence). -/
theorem combine_assoc_sequences (s1 s2 s3 : ShapeExpr) :
    (ShapeExpr.combine (ShapeExpr.combine s1 s2) s3).triangles =
      (ShapeExpr.combine s1 (ShapeExpr.combine s2 s3)).triangles := by
  simp only [ShapeExpr.triangles_combine, List.append_assoc]

/-- Claim C8: iterating a composed shape expression any number of times
produces the identical triangle sequence on every iteration — each of the
`n` fresh iterations (one per frame) drains a fresh iterator of the
unconsumed shape value and yields the one sequence `s.triangles`
determined purely by the expression tree. -/
theorem iteration_deterministic_restartable (s : ShapeExpr) (n : ℕ) :
    s.iterateN n = List.replicate n s.triangles := by
  induction n with
  | zero => rfl
  | succ n ih => simp [ShapeExpr.iterateN, ih, List.replicate]

/-- Claim C9: for every pair of corner points, regardless of order, the
six position points emitted by `Rect(p0, p1)` contain each of the four
axis-aligned rectangle corners (min-x/min-y, max-x/min-y, min-x/max-y,
max-x/max-y), and `Rect(p0, p1)` and `Rect(p1, p0)` emit the same set of
position points. -/
theorem rect_corner_coverage_order_independent (p0 p1 : ℝ × ℝ) :
    (Point.mk (min p0.1 p1.1) (min p0.2 p1.2)
        ∈ posPoints ((ShapeExpr.rect ⟨p0, p1⟩).triangles) ∧
      Point.mk (max p0.1 p1.1) (min p0.2 p1.2)
        ∈ posPoints ((ShapeExpr.rect ⟨p0, p1⟩).triangles) ∧
      Point.mk (min p0.1 p1.1) (max p0.2 p1.2)
        ∈ posPoints ((ShapeExpr.rect ⟨p0, p1⟩).triangles) ∧
      Point.mk (max p0.1 p1.1) (max p0.2 p1.2)
        ∈ posPoints ((ShapeExpr.rect ⟨p0, p1⟩).triangles)) ∧
    ∀ q : Point,
      q ∈ posPoints ((ShapeExpr.rect ⟨p0, p1⟩).triangles) ↔
        q ∈ posPoints ((ShapeExpr.rect ⟨p1, p0⟩).triangles) := by
  constructor
  · rcases le_total p0.1 p1.1 with hx | hx <;> rcases le_total p0.2 p1.2 with hy | hy <;>
      rw [posPoints_rect] <;>
      simp [min_eq_left, min_eq_right, max_eq_left, max_eq_right, hx, hy]
  · intro q
    rw [posPoints_rect, posPoints_rect]
    simp only [List.mem_cons, List.not_mem_nil, or_false]
    tauto

/-- Claim C10: every triangle built through `Tri::new_pos` — and hence
every triangle emitted by `Rect` — has color exactly white, the RGBA
value `[1,1,1,1]` (a default the spec never states). -/
theorem new_pos_color_is_white (ps : Positions) (r : Rect) :
    (Tri.new_pos ps).color = ((1 : ℝ), (1 : ℝ), (1 : ℝ), (1 : ℝ)) ∧
      (ShapeExpr.rect r).triangles.map (fun t => t.tri.color) =
        [((1 : ℝ), (1 : ℝ), (1 : ℝ), (1 : ℝ)), ((1 : ℝ), (1 : ℝ), (1 : ℝ), (1 : ℝ))] := by
  refine ⟨rfl, ?_⟩
  rw [ShapeExpr.triangles_rect]; rfl

end Nest
